import Mathlib

/-!
Shallow embedding of the taildrop file-receive core
(src/taildrop/send.go): the PutFile orchestrator, its resume, copy and
finalize phases, and the progress-notifying writer incomingFile.Write.

The on-disk state is an association list from path to byte content, the
in-flight registry is a list of transfer keys, and every filesystem
syscall performed by PutFile is additionally recorded in an operation
trace so that statements about which operations a call performs (stats,
renames, seeks, truncates, writes) can be made directly.
-/

namespace Taildrop

/-- Bytes of a file, modelled as a list of natural numbers. -/
abbrev Content := List Nat

/-- On-disk state: association list from path to file content; lookup
returns the first binding for a path. -/
abbrev FS := List (String × Content)

/-- Transfer key: (sender identity, base filename), mirroring
incomingFileKey. -/
abbrev Key := String × String

def fsGet (fs : FS) (p : String) : Option Content :=
  match fs.find? (fun e => e.1 == p) with
  | some e => some e.2
  | none => none

def fsSet (fs : FS) (p : String) (c : Content) : FS := (p, c) :: fs

def fsDel (fs : FS) (p : String) : FS := fs.filter (fun e => !(e.1 == p))

def regDelete (k : Key) (l : List Key) : List Key :=
  l.filter (fun e => decide (e ≠ k))

/-- Filesystem operations performed by PutFile, in program order.  A
stat records whether the path existed at that moment. -/
inductive FsOp where
  | create (p : String)
  | seekEnd (p : String)
  | seekTo (p : String) (off : Int)
  | truncate (p : String) (n : Int)
  | write (p : String) (n : Nat)
  | close (p : String)
  | stat (p : String) (existed : Bool)
  | rename (src dst : String)
  | remove (p : String)
deriving DecidableEq

/-- Errors PutFile can return, one per return site family in send.go. -/
inductive Err where
  | noTaildrop
  | notAccessible
  | badName
  | fileExists
  | copyErr
  | copyLenMismatch
  | tooManyRetries
deriving DecidableEq

/-- Modelled from the spec: the error-redaction helper redactErr is not
among the source files.  Per the spec, filesystem error messages are
redacted before logging while the error returned to the caller keeps its
identity.  Redaction inspects an error value and returns it (possibly
rewritten), so the absence of an error redacts to the absence of an
error; the error taxonomy itself is untouched, hence the model is the
identity on Option Err. -/
def redactErr (e : Option Err) : Option Err := e

/-- Modelled from the spec: ClientID.partialSuffix is not among the
source files.  Per the spec, a partial file is named by the final name
followed by a sender-scoped suffix that is distinguishable from any
valid final filename; the sender id is folded into the suffix when it is
non-empty. -/
def partSuffix (id : String) : String :=
  if id = "" then ".partial" else "." ++ id ++ ".partial"

/-- Modelled from the spec: NextFilename is not among the source files.
Per the spec it is a deterministic pure function on paths that never
returns its input and is stable, producing the next candidate name by
appending a numeric disambiguator. -/
def nextFilename (p : String) : String := p ++ "1"

/-- Modelled from the spec: Manager.joinDir is not among the source
files.  Per the spec, the base name must resolve to a path strictly
inside the storage root: no path separators and no traversal
components. -/
def validName (s : String) : Bool :=
  !(s == "") && !(s.data.contains '/') && !(s.data.contains '\\') && !(s == ".") && !(s == "..")

def joinDir (dir name : String) : Option String :=
  if validName name then some (dir ++ "/" ++ name) else none

/-- The content digest used by sha256File.  crypto/sha256 is an external
collision-resistant digest used by the code only for equality tests, and
both code and spec treat digest equality as content equality, so it is
modelled as the content itself (an injective digest). -/
def digest (c : Content) : Content := c

/-- Manager fields and external configuration consulted by PutFile. -/
structure Config where
  dir : String
  canTaildrop : Bool
  unraid : Bool
  directFileMode : Bool
  avoidFinalRename : Bool

/-- The input reader: the bytes it will yield, and whether reading ends
in an error after those bytes (io.Copy then reports that error). -/
structure Reader where
  data : Content
  readErr : Bool

/-- Mutable state threaded through a call: the disk and the in-flight
transfer registry (m.incomingFiles). -/
structure SysState where
  fs : FS
  reg : List Key

/-- Result of a PutFile call: returned int64 and error, the disk and
registry afterwards, and the trace of filesystem operations
performed. -/
structure PutResult where
  val : Int
  err : Option Err
  fs : FS
  reg : List Key
  trace : List FsOp

/-- The finalize loop of PutFile: up to fuel iterations of the
stat-then-rename decision (taken under m.renameMu), with dedup on equal
size and digest, advancing the candidate name otherwise.  Exhausting the
fuel is the "too many retries" fatal error. -/
def finalizeLoop (fuel : Nat) (pPath dst : String) (fileLength : Int) (fs : FS) :
    Int × Option Err × FS × List FsOp :=
  match fuel with
  | 0 => (0, some Err.tooManyRetries, fs, [])
  | fuel' + 1 =>
    match fsGet fs dst with
    | none =>
      let c := (fsGet fs pPath).getD []
      (fileLength, none, fsSet (fsDel fs pPath) dst c,
        [FsOp.stat dst false, FsOp.rename pPath dst])
    | some c =>
      if (c.length : Int) = fileLength ∧ digest c = digest ((fsGet fs pPath).getD []) then
        (fileLength, none, fsDel fs pPath, [FsOp.stat dst true, FsOp.remove pPath])
      else
        let r := finalizeLoop fuel' pPath (nextFilename dst) fileLength fs
        (r.1, r.2.1, r.2.2.1, FsOp.stat dst true :: r.2.2.2)

/-- The copy phase and everything after it: write the reader bytes at
the current cursor (offset), surface a read error (with the deferred
best-effort removal of the partial file in AvoidFinalRename mode, the
only error return site at which the outer err variable of PutFile is
non-nil), enforce the declared length, close, then either return early
in AvoidFinalRename mode or run the finalize loop.  The deferred
f.Close runs on every return path, giving a second close on the paths
with an explicit close. -/
def copyPhase (avoid : Bool) (fs : FS) (pPath dst : String) (r : Reader)
    (offset length : Int) (c1 : Content) : Int × Option Err × FS × List FsOp :=
  let newC := c1.take offset.toNat ++ r.data ++ c1.drop (offset.toNat + r.data.length)
  let fs2 := fsSet fs pPath newC
  if r.readErr then
    if avoid then
      (0, some Err.copyErr, fsDel fs2 pPath,
        [FsOp.write pPath r.data.length, FsOp.close pPath, FsOp.remove pPath])
    else
      (0, some Err.copyErr, fs2, [FsOp.write pPath r.data.length, FsOp.close pPath])
  else if 0 ≤ length ∧ (r.data.length : Int) ≠ length then
    (0, some Err.copyLenMismatch, fs2, [FsOp.write pPath r.data.length, FsOp.close pPath])
  else if avoid then
    (offset + (r.data.length : Int), none, fs2,
      [FsOp.write pPath r.data.length, FsOp.close pPath, FsOp.close pPath])
  else
    let fin := finalizeLoop 10 pPath dst (offset + (r.data.length : Int)) fs2
    (fin.1, fin.2.1, fin.2.2.1,
      FsOp.write pPath r.data.length :: FsOp.close pPath :: (fin.2.2.2 ++ [FsOp.close pPath]))

/-- The admitted part of PutFile: open (create if absent) the partial
file read-write, then for a non-zero offset seek to the end, validate
the offset, seek and truncate to it; then the copy phase.  On the
invalid-offset return site the code passes the inner, already-nil Seek
error to redactAndLogError (the inner err shadows the outer one), so
that path returns the redaction of no error. -/
def putFileBody (avoid : Bool) (fs : FS) (pPath dst : String) (r : Reader)
    (offset length : Int) : Int × Option Err × FS × List FsOp :=
  let c0 := (fsGet fs pPath).getD []
  let fs1 := if (fsGet fs pPath).isSome then fs else fsSet fs pPath []
  if offset = 0 then
    let cp := copyPhase avoid fs1 pPath dst r offset length c0
    (cp.1, cp.2.1, cp.2.2.1, FsOp.create pPath :: cp.2.2.2)
  else
    if offset < 0 ∨ (c0.length : Int) < offset then
      (0, redactErr none, fs1, [FsOp.create pPath, FsOp.seekEnd pPath, FsOp.close pPath])
    else
      let cp := copyPhase avoid (fsSet fs1 pPath (c0.take offset.toNat)) pPath dst r offset length
        (c0.take offset.toNat)
      (cp.1, cp.2.1, cp.2.2.1, FsOp.create pPath :: FsOp.seekEnd pPath :: FsOp.seekTo pPath offset ::
        FsOp.truncate pPath offset :: cp.2.2.2)

/-- The transfer key PutFile registers: the sender id is blanked in
AvoidFinalRename direct mode before the key is formed. -/
def transferKey (cfg : Config) (id name : String) : Key :=
  (if cfg.directFileMode && cfg.avoidFinalRename then "" else id, name)

/-- The destination path PutFile computes for a valid base name. -/
def dstPathOf (cfg : Config) (name : String) : String := cfg.dir ++ "/" ++ name

/-- The partial-file path PutFile computes. -/
def partPathOf (cfg : Config) (id name : String) : String :=
  dstPathOf cfg name ++ partSuffix (transferKey cfg id name).1

/-- Manager.PutFile: precondition checks, path resolution, admission
through the in-flight registry (load-or-init, with unconditional
deregistration on return), then the admitted body. -/
def putFile (cfg : Config) (st : SysState) (id : String) (name : String) (r : Reader)
    (offset length : Int) : PutResult :=
  if cfg.dir = "" then ⟨0, some Err.noTaildrop, st.fs, st.reg, []⟩
  else if !cfg.canTaildrop then ⟨0, some Err.noTaildrop, st.fs, st.reg, []⟩
  else if cfg.unraid && !cfg.directFileMode then ⟨0, some Err.notAccessible, st.fs, st.reg, []⟩
  else
    match joinDir cfg.dir name with
    | none => ⟨0, some Err.badName, st.fs, st.reg, []⟩
    | some dstPath =>
      let avoid := cfg.directFileMode && cfg.avoidFinalRename
      let id2 := if avoid then "" else id
      let pPath := dstPath ++ partSuffix id2
      let key : Key := (id2, name)
      if key ∈ st.reg then ⟨0, some Err.fileExists, st.fs, st.reg, []⟩
      else
        let b := putFileBody avoid st.fs pPath dstPath r offset length
        ⟨b.1, b.2.1, b.2.2.1, regDelete key (key :: st.reg), b.2.2.2⟩

/-! The progress-notifying writer (incomingFile.Write). -/

/-- The mutable notifier state of an incomingFile: bytes copied so far
and the time of the last notification, where none models the zero
time (lastNotify.IsZero). -/
structure NotifyState where
  copied : Int
  lastNotify : Option Int

/-- One call to incomingFile.Write: n is the byte count returned by the
underlying writer (a successful write has n positive) and now is the
clock reading taken during the call. -/
structure WriteEv where
  n : Nat
  now : Int

/-- One second of the wall clock, in nanoseconds (Go time.Second). -/
def oneSecond : Int := 1000000000

/-- incomingFile.Write: forward to the underlying writer; when bytes
were written, add them to the counter and, when no notification was
ever sent or more than a second elapsed since the last one, record the
time and fire the notifier (the returned Bool). -/
def writeStep (s : NotifyState) (e : WriteEv) : NotifyState × Bool :=
  if 0 < e.n then
    let fires := match s.lastNotify with
      | none => true
      | some t => oneSecond < e.now - t
    if fires then (⟨s.copied + e.n, some e.now⟩, true)
    else (⟨s.copied + e.n, s.lastNotify⟩, false)
  else (s, false)

/-- The clock times at which the notifier fires over a sequence of
writes. -/
def notifyTimes (s : NotifyState) : List WriteEv → List Int
  | [] => []
  | e :: es =>
    let r := writeStep s e
    if r.2 then e.now :: notifyTimes r.1 es else notifyTimes r.1 es

/-- The fresh notifier state of a newly admitted transfer. -/
def initNotify : NotifyState := ⟨0, none⟩

/-! Helper lemmas about the filesystem and registry model. -/

theorem fsGet_set_self (fs : FS) (p : String) (c : Content) :
    fsGet (fsSet fs p c) p = some c := by
  simp [fsGet, fsSet, List.find?]

theorem fsGet_set_ne (fs : FS) (p q : String) (c : Content) (h : q ≠ p) :
    fsGet (fsSet fs p c) q = fsGet fs q := by
  have hb : (p == q) = false := beq_eq_false_iff_ne.mpr (Ne.symm h)
  simp [fsGet, fsSet, List.find?, hb]

theorem fsGet_del_self (fs : FS) (p : String) : fsGet (fsDel fs p) p = none := by
  induction fs with
  | nil => rfl
  | cons e fs ih =>
    simp only [fsDel, List.filter_cons] at *
    by_cases hb : (e.1 == p) = true
    · simp [hb, ih]
    · simp only [hb, Bool.not_false, if_true, if_false]
      simp only [fsGet, List.find?, hb] at *
      exact ih

theorem fsGet_del_ne (fs : FS) (p q : String) (h : q ≠ p) :
    fsGet (fsDel fs p) q = fsGet fs q := by
  induction fs with
  | nil => rfl
  | cons e fs ih =>
    simp only [fsDel, List.filter_cons] at *
    by_cases hb : (e.1 == p) = true
    · have hq : (e.1 == q) = false := by
        have : e.1 = p := by simpa using hb
        exact beq_eq_false_iff_ne.mpr (by simp [this, Ne.symm h])
      simp only [hb, Bool.not_true, if_false]
      simp only [fsGet, List.find?, hq] at *
      exact ih
    · simp only [hb, Bool.not_false, if_true]
      by_cases hq : (e.1 == q) = true
      · simp [fsGet, List.find?, hq]
      · simp only [fsGet, List.find?, hq] at *
        exact ih

theorem not_mem_regDelete (k : Key) (l : List Key) : k ∉ regDelete k l := by
  simp [regDelete, List.mem_filter]

theorem mem_regDelete_iff (k e : Key) (l : List Key) :
    e ∈ regDelete k l ↔ e ∈ l ∧ e ≠ k := by
  simp [regDelete, List.mem_filter]

theorem append_ne_self (p s : String) (h : s ≠ "") : p ++ s ≠ p := by
  intro he
  have h1 := congrArg String.length he
  rw [String.length_append] at h1
  have h2 : s.length = 0 := by omega
  apply h
  cases s with
  | mk data =>
    simp [String.length] at h2
    simp [h2]

theorem partSuffix_ne_empty (id : String) : partSuffix id ≠ "" := by
  unfold partSuffix
  split
  · decide
  · intro he
    have h1 := congrArg String.length he
    rw [String.length_append, String.length_append] at h1
    have h2 : ("." : String).length = 1 := rfl
    have h3 : (".partial" : String).length = 8 := rfl
    have h4 : ("" : String).length = 0 := rfl
    omega

theorem partPath_ne_dst (dst id : String) : dst ++ partSuffix id ≠ dst :=
  append_ne_self dst (partSuffix id) (partSuffix_ne_empty id)

/-! Trace predicates. -/

def isRename : FsOp → Bool
  | FsOp.rename _ _ => true
  | _ => false

def isStat : FsOp → Bool
  | FsOp.stat _ _ => true
  | _ => false

def isSeekOrTruncate : FsOp → Bool
  | FsOp.seekEnd _ => true
  | FsOp.seekTo _ _ => true
  | FsOp.truncate _ _ => true
  | _ => false

def isWrite : FsOp → Bool
  | FsOp.write _ _ => true
  | _ => false

/-- Number of stat-then-rename decisions recorded in a trace. -/
def statCount (tr : List FsOp) : Nat := tr.countP isStat

/-- A trace is rename-guarded when every rename in it comes immediately
after a stat of its destination path that reported the path absent:
renames happen only through the atomic stat-then-rename decision. -/
inductive RenamesGuarded : List FsOp → Prop where
  | nil : RenamesGuarded []
  | skip (op : FsOp) (tl : List FsOp) : isRename op = false → RenamesGuarded tl →
      RenamesGuarded (op :: tl)
  | pair (s d : String) (tl : List FsOp) : RenamesGuarded tl →
      RenamesGuarded (FsOp.stat d false :: FsOp.rename s d :: tl)

theorem RenamesGuarded.append {A B : List FsOp} (hA : RenamesGuarded A)
    (hB : RenamesGuarded B) : RenamesGuarded (A ++ B) := by
  induction hA with
  | nil => simpa using hB
  | skip op tl hop _ ih => exact RenamesGuarded.skip op _ hop ih
  | pair s d tl _ ih => exact RenamesGuarded.pair s d _ ih

/-! Lemmas about the finalize loop. -/

theorem isRename_stat (d : String) (b : Bool) : isRename (FsOp.stat d b) = false := rfl

theorem isRename_remove (p : String) : isRename (FsOp.remove p) = false := rfl

theorem finalizeLoop_guarded (fuel : Nat) (pPath : String) (fileLength : Int) :
    ∀ (dst : String) (fs : FS), RenamesGuarded (finalizeLoop fuel pPath dst fileLength fs).2.2.2 := by
  induction fuel with
  | zero => intro dst fs; exact RenamesGuarded.nil
  | succ fuel ih =>
    intro dst fs
    cases hdst : fsGet fs dst with
    | none =>
      simp only [finalizeLoop, hdst]
      exact RenamesGuarded.pair pPath dst [] RenamesGuarded.nil
    | some c =>
      simp only [finalizeLoop, hdst]
      split
      · exact RenamesGuarded.skip _ _ (isRename_stat dst true)
          (RenamesGuarded.skip _ _ (isRename_remove pPath) RenamesGuarded.nil)
      · exact RenamesGuarded.skip _ _ (isRename_stat dst true) (ih (nextFilename dst) fs)

theorem finalizeLoop_statCount_le (fuel : Nat) (pPath : String) (fileLength : Int) :
    ∀ (dst : String) (fs : FS), statCount (finalizeLoop fuel pPath dst fileLength fs).2.2.2 ≤ fuel := by
  induction fuel with
  | zero => intro dst fs; simp [finalizeLoop, statCount]
  | succ fuel ih =>
    intro dst fs
    cases hdst : fsGet fs dst with
    | none => simp [finalizeLoop, hdst, statCount, isStat]
    | some c =>
      simp only [finalizeLoop, hdst]
      split
      · simp [statCount, isStat]
      · have h1 := ih (nextFilename dst) fs
        simp only [statCount] at h1 ⊢
        simp [List.countP_cons, isStat]
        omega

theorem finalizeLoop_err_spec (fuel : Nat) (pPath : String) (fileLength : Int) :
    ∀ (dst : String) (fs : FS),
      (finalizeLoop fuel pPath dst fileLength fs).2.1 ≠ none →
      (finalizeLoop fuel pPath dst fileLength fs).1 = 0 ∧
      (finalizeLoop fuel pPath dst fileLength fs).2.1 = some Err.tooManyRetries ∧
      (finalizeLoop fuel pPath dst fileLength fs).2.2.1 = fs ∧
      statCount (finalizeLoop fuel pPath dst fileLength fs).2.2.2 = fuel := by
  induction fuel with
  | zero => intro dst fs _; simp [finalizeLoop, statCount]
  | succ fuel ih =>
    intro dst fs herr
    cases hdst : fsGet fs dst with
    | none => simp [finalizeLoop, hdst] at herr
    | some c =>
      simp only [finalizeLoop, hdst] at herr ⊢
      by_cases hdd : (c.length : Int) = fileLength ∧ digest c = digest ((fsGet fs pPath).getD [])
      · rw [if_pos hdd] at herr; simp at herr
      · rw [if_neg hdd] at herr ⊢
        simp only [] at herr ⊢
        have h1 := ih (nextFilename dst) fs herr
        refine ⟨h1.1, h1.2.1, h1.2.2.1, ?_⟩
        have h4 := h1.2.2.2
        simp only [statCount, List.countP_cons] at h4 ⊢
        simp [isStat]
        omega

theorem finalizeLoop_preserve (fuel : Nat) (pPath : String) (fileLength : Int) :
    ∀ (dst : String) (fs : FS) (q : String) (c : Content), q ≠ pPath →
      fsGet fs q = some c → fsGet (finalizeLoop fuel pPath dst fileLength fs).2.2.1 q = some c := by
  induction fuel with
  | zero => intro dst fs q c _ hq; simpa [finalizeLoop] using hq
  | succ fuel ih =>
    intro dst fs q c hqp hq
    cases hdst : fsGet fs dst with
    | none =>
      have hqd : q ≠ dst := by
        intro h; rw [h, hdst] at hq; exact Option.noConfusion hq
      simp only [finalizeLoop, hdst]
      rw [fsGet_set_ne _ _ _ _ hqd, fsGet_del_ne _ _ _ hqp]
      exact hq
    | some c2 =>
      simp only [finalizeLoop, hdst]
      split
      · rw [fsGet_del_ne _ _ _ hqp]
        exact hq
      · exact ih (nextFilename dst) fs q c hqp hq

/-! Lemmas about the copy phase and the admitted body. -/

theorem isRename_create (p : String) : isRename (FsOp.create p) = false := rfl

theorem isRename_seekEnd (p : String) : isRename (FsOp.seekEnd p) = false := rfl

theorem isRename_seekTo (p : String) (o : Int) : isRename (FsOp.seekTo p o) = false := rfl

theorem isRename_truncate (p : String) (o : Int) : isRename (FsOp.truncate p o) = false := rfl

theorem isRename_write (p : String) (n : Nat) : isRename (FsOp.write p n) = false := rfl

theorem isRename_close (p : String) : isRename (FsOp.close p) = false := rfl

theorem copyPhase_err_none_or_val_zero (avoid : Bool) (fs : FS) (pPath dst : String)
    (r : Reader) (offset length : Int) (c1 : Content) :
    (copyPhase avoid fs pPath dst r offset length c1).2.1 = none ∨
    (copyPhase avoid fs pPath dst r offset length c1).1 = 0 := by
  unfold copyPhase
  split
  · split
    · right; rfl
    · right; rfl
  · split
    · right; rfl
    · split
      · left; rfl
      · rcases Option.eq_none_or_eq_some (finalizeLoop 10 pPath dst
            (offset + (r.data.length : Int)) (fsSet fs pPath _)).2.1 with h | ⟨e, h⟩
        · left; exact h
        · right
          exact (finalizeLoop_err_spec 10 pPath _ dst _ (by rw [h]; exact Option.some_ne_none e)).1

theorem copyPhase_guarded (avoid : Bool) (fs : FS) (pPath dst : String)
    (r : Reader) (offset length : Int) (c1 : Content) :
    RenamesGuarded (copyPhase avoid fs pPath dst r offset length c1).2.2.2 := by
  unfold copyPhase
  dsimp only []
  split
  · split
    · exact RenamesGuarded.skip _ _ (isRename_write pPath _)
        (RenamesGuarded.skip _ _ (isRename_close pPath)
          (RenamesGuarded.skip _ _ (isRename_remove pPath) RenamesGuarded.nil))
    · exact RenamesGuarded.skip _ _ (isRename_write pPath _)
        (RenamesGuarded.skip _ _ (isRename_close pPath) RenamesGuarded.nil)
  · split
    · exact RenamesGuarded.skip _ _ (isRename_write pPath _)
        (RenamesGuarded.skip _ _ (isRename_close pPath) RenamesGuarded.nil)
    · split
      · exact RenamesGuarded.skip _ _ (isRename_write pPath _)
          (RenamesGuarded.skip _ _ (isRename_close pPath)
            (RenamesGuarded.skip _ _ (isRename_close pPath) RenamesGuarded.nil))
      · exact RenamesGuarded.skip _ _ (isRename_write pPath _)
          (RenamesGuarded.skip _ _ (isRename_close pPath)
            (RenamesGuarded.append (finalizeLoop_guarded 10 pPath _ dst _)
              (RenamesGuarded.skip _ _ (isRename_close pPath) RenamesGuarded.nil)))

theorem copyPhase_preserve (avoid : Bool) (fs : FS) (pPath dst : String)
    (r : Reader) (offset length : Int) (c1 : Content) (q : String) (c : Content)
    (hqp : q ≠ pPath) (hq : fsGet fs q = some c) :
    fsGet (copyPhase avoid fs pPath dst r offset length c1).2.2.1 q = some c := by
  unfold copyPhase
  dsimp only []
  split
  · split
    · rw [fsGet_del_ne _ _ _ hqp, fsGet_set_ne _ _ _ _ hqp]; exact hq
    · rw [fsGet_set_ne _ _ _ _ hqp]; exact hq
  · split
    · rw [fsGet_set_ne _ _ _ _ hqp]; exact hq
    · split
      · rw [fsGet_set_ne _ _ _ _ hqp]; exact hq
      · exact finalizeLoop_preserve 10 pPath _ dst _ q c hqp
          (by rw [fsGet_set_ne _ _ _ _ hqp]; exact hq)

theorem copyPhase_statCount_le (avoid : Bool) (fs : FS) (pPath dst : String)
    (r : Reader) (offset length : Int) (c1 : Content) :
    statCount (copyPhase avoid fs pPath dst r offset length c1).2.2.2 ≤ 10 := by
  unfold copyPhase
  dsimp only []
  generalize c1.take offset.toNat ++ r.data ++ c1.drop (offset.toNat + r.data.length) = newC
  split
  · split
    · simp [statCount, List.countP_cons, isStat]
    · simp [statCount, List.countP_cons, isStat]
  · split
    · simp [statCount, List.countP_cons, isStat]
    · split
      · simp [statCount, List.countP_cons, isStat]
      · have h1 := finalizeLoop_statCount_le 10 pPath (offset + (r.data.length : Int)) dst
          (fsSet fs pPath newC)
        simp only [statCount, List.countP_cons, List.countP_append] at h1 ⊢
        simp [isStat]
        omega

theorem copyPhase_tooMany (avoid : Bool) (fs : FS) (pPath dst : String)
    (r : Reader) (offset length : Int) (c1 : Content)
    (h : (copyPhase avoid fs pPath dst r offset length c1).2.1 = some Err.tooManyRetries) :
    statCount (copyPhase avoid fs pPath dst r offset length c1).2.2.2 = 10 ∧
    (fsGet (copyPhase avoid fs pPath dst r offset length c1).2.2.1 pPath).isSome = true := by
  unfold copyPhase at h ⊢
  dsimp only [] at h ⊢
  generalize hg : c1.take offset.toNat ++ r.data ++ c1.drop (offset.toNat + r.data.length) = newC at h ⊢
  split at h
  · split at h
    · simp at h
    · simp at h
  · split at h
    · simp at h
    · split at h
      · simp at h
      · have hsp := finalizeLoop_err_spec 10 pPath (offset + (r.data.length : Int)) dst
          (fsSet fs pPath newC) (by rw [h]; exact Option.some_ne_none _)
        rename_i h1 h2 h3
        constructor
        · rw [if_neg h1, if_neg h2, if_neg h3]
          simp only [statCount, List.countP_cons, List.countP_append]
          have h4 := hsp.2.2.2
          simp only [statCount] at h4
          simp [isStat]
          omega
        · rw [if_neg h1, if_neg h2, if_neg h3]
          dsimp only []
          rw [hsp.2.2.1, fsGet_set_self]
          rfl

theorem putFileBody_err_none_or_val_zero (avoid : Bool) (fs : FS) (pPath dst : String)
    (r : Reader) (offset length : Int) :
    (putFileBody avoid fs pPath dst r offset length).2.1 = none ∨
    (putFileBody avoid fs pPath dst r offset length).1 = 0 := by
  unfold putFileBody
  dsimp only []
  split
  · exact copyPhase_err_none_or_val_zero _ _ _ _ _ _ _ _
  · split
    · left; rfl
    · exact copyPhase_err_none_or_val_zero _ _ _ _ _ _ _ _

theorem putFileBody_guarded (avoid : Bool) (fs : FS) (pPath dst : String)
    (r : Reader) (offset length : Int) :
    RenamesGuarded (putFileBody avoid fs pPath dst r offset length).2.2.2 := by
  unfold putFileBody
  dsimp only []
  split
  · exact RenamesGuarded.skip _ _ (isRename_create pPath) (copyPhase_guarded _ _ _ _ _ _ _ _)
  · split
    · exact RenamesGuarded.skip _ _ (isRename_create pPath)
        (RenamesGuarded.skip _ _ (isRename_seekEnd pPath)
          (RenamesGuarded.skip _ _ (isRename_close pPath) RenamesGuarded.nil))
    · exact RenamesGuarded.skip _ _ (isRename_create pPath)
        (RenamesGuarded.skip _ _ (isRename_seekEnd pPath)
          (RenamesGuarded.skip _ _ (isRename_seekTo pPath offset)
            (RenamesGuarded.skip _ _ (isRename_truncate pPath offset)
              (copyPhase_guarded _ _ _ _ _ _ _ _))))

theorem putFileBody_preserve (avoid : Bool) (fs : FS) (pPath dst : String)
    (r : Reader) (offset length : Int) (q : String) (c : Content)
    (hqp : q ≠ pPath) (hq : fsGet fs q = some c) :
    fsGet (putFileBody avoid fs pPath dst r offset length).2.2.1 q = some c := by
  have hq1 : fsGet (if (fsGet fs pPath).isSome then fs else fsSet fs pPath []) q = some c := by
    split
    · exact hq
    · rw [fsGet_set_ne _ _ _ _ hqp]; exact hq
  unfold putFileBody
  dsimp only []
  split
  · exact copyPhase_preserve _ _ _ _ _ _ _ _ q c hqp hq1
  · split
    · exact hq1
    · exact copyPhase_preserve _ _ _ _ _ _ _ _ q c hqp
        (by rw [fsGet_set_ne _ _ _ _ hqp]; exact hq1)

theorem putFileBody_statCount_le (avoid : Bool) (fs : FS) (pPath dst : String)
    (r : Reader) (offset length : Int) :
    statCount (putFileBody avoid fs pPath dst r offset length).2.2.2 ≤ 10 := by
  unfold putFileBody
  dsimp only []
  split
  · have h1 := copyPhase_statCount_le avoid (if (fsGet fs pPath).isSome then fs else fsSet fs pPath [])
      pPath dst r offset length ((fsGet fs pPath).getD [])
    simp only [statCount, List.countP_cons] at h1 ⊢
    simp [isStat]
    omega
  · split
    · simp [statCount, List.countP_cons, isStat]
    · have h1 := copyPhase_statCount_le avoid
        (fsSet (if (fsGet fs pPath).isSome then fs else fsSet fs pPath [])
          pPath (((fsGet fs pPath).getD []).take offset.toNat))
        pPath dst r offset length (((fsGet fs pPath).getD []).take offset.toNat)
      simp only [statCount, List.countP_cons] at h1 ⊢
      simp [isStat]
      omega

theorem putFileBody_tooMany (avoid : Bool) (fs : FS) (pPath dst : String)
    (r : Reader) (offset length : Int)
    (h : (putFileBody avoid fs pPath dst r offset length).2.1 = some Err.tooManyRetries) :
    statCount (putFileBody avoid fs pPath dst r offset length).2.2.2 = 10 ∧
    (fsGet (putFileBody avoid fs pPath dst r offset length).2.2.1 pPath).isSome = true := by
  unfold putFileBody at h ⊢
  dsimp only [] at h ⊢
  split at h
  · have h1 := copyPhase_tooMany _ _ _ _ _ _ _ _ h
    rename_i hoff
    rw [if_pos hoff]
    refine ⟨?_, h1.2⟩
    simp only [statCount, List.countP_cons] at h1 ⊢
    simp [isStat]
    omega
  · split at h
    · simp [redactErr] at h
    · have h1 := copyPhase_tooMany _ _ _ _ _ _ _ _ h
      rename_i hoff hvalid
      rw [if_neg hoff, if_neg hvalid]
      refine ⟨?_, h1.2⟩
      simp only [statCount, List.countP_cons] at h1 ⊢
      simp [isStat]
      omega

/-! Wrapper-level characterizations of PutFile. -/

theorem putFile_reg_cases (cfg : Config) (st : SysState) (id name : String)
    (r : Reader) (offset length : Int) :
    (putFile cfg st id name r offset length).reg = st.reg ∨
    (putFile cfg st id name r offset length).reg =
      regDelete (transferKey cfg id name) (transferKey cfg id name :: st.reg) := by
  unfold putFile
  split
  · left; rfl
  · split
    · left; rfl
    · split
      · left; rfl
      · split
        · left; rfl
        · dsimp only []
          split <;> split
          · left; rfl
          · rename_i havoid _
            right
            simp [transferKey, havoid]
          · left; rfl
          · rename_i havoid _
            right
            simp [transferKey, havoid]

theorem putFile_cases (cfg : Config) (st : SysState) (id name : String)
    (r : Reader) (offset length : Int) :
    (∃ e : Err, e ≠ Err.tooManyRetries ∧
      putFile cfg st id name r offset length = ⟨0, some e, st.fs, st.reg, []⟩) ∨
    putFile cfg st id name r offset length =
      ⟨(putFileBody (cfg.directFileMode && cfg.avoidFinalRename) st.fs (partPathOf cfg id name)
          (dstPathOf cfg name) r offset length).1,
        (putFileBody (cfg.directFileMode && cfg.avoidFinalRename) st.fs (partPathOf cfg id name)
          (dstPathOf cfg name) r offset length).2.1,
        (putFileBody (cfg.directFileMode && cfg.avoidFinalRename) st.fs (partPathOf cfg id name)
          (dstPathOf cfg name) r offset length).2.2.1,
        regDelete (transferKey cfg id name) (transferKey cfg id name :: st.reg),
        (putFileBody (cfg.directFileMode && cfg.avoidFinalRename) st.fs (partPathOf cfg id name)
          (dstPathOf cfg name) r offset length).2.2.2⟩ := by
  unfold putFile
  split
  · exact Or.inl ⟨Err.noTaildrop, by decide, rfl⟩
  · split
    · exact Or.inl ⟨Err.noTaildrop, by decide, rfl⟩
    · split
      · exact Or.inl ⟨Err.notAccessible, by decide, rfl⟩
      · split
        · exact Or.inl ⟨Err.badName, by decide, rfl⟩
        · rename_i dstPath heq
          have hdst : dstPath = dstPathOf cfg name := by
            unfold joinDir at heq
            split at heq
            · exact (Option.some.injEq _ _ ▸ heq).symm
            · exact Option.noConfusion heq
          subst hdst
          dsimp only []
          split <;> split
          · exact Or.inl ⟨Err.fileExists, by decide, rfl⟩
          · rename_i havoid _
            right
            simp [partPathOf, dstPathOf, transferKey, havoid]
          · exact Or.inl ⟨Err.fileExists, by decide, rfl⟩
          · rename_i havoid _
            right
            have hav : (cfg.directFileMode && cfg.avoidFinalRename) = false :=
              Bool.not_eq_true _ ▸ eq_false_of_ne_true havoid
            simp [partPathOf, dstPathOf, transferKey, hav]

theorem putFile_admitted_eq (cfg : Config) (st : SysState) (id name : String)
    (r : Reader) (offset length : Int)
    (hdir : cfg.dir ≠ "") (hcan : cfg.canTaildrop = true)
    (hacc : (cfg.unraid && !cfg.directFileMode) = false)
    (hname : validName name = true)
    (hkey : transferKey cfg id name ∉ st.reg) :
    putFile cfg st id name r offset length =
      ⟨(putFileBody (cfg.directFileMode && cfg.avoidFinalRename) st.fs (partPathOf cfg id name)
          (dstPathOf cfg name) r offset length).1,
        (putFileBody (cfg.directFileMode && cfg.avoidFinalRename) st.fs (partPathOf cfg id name)
          (dstPathOf cfg name) r offset length).2.1,
        (putFileBody (cfg.directFileMode && cfg.avoidFinalRename) st.fs (partPathOf cfg id name)
          (dstPathOf cfg name) r offset length).2.2.1,
        regDelete (transferKey cfg id name) (transferKey cfg id name :: st.reg),
        (putFileBody (cfg.directFileMode && cfg.avoidFinalRename) st.fs (partPathOf cfg id name)
          (dstPathOf cfg name) r offset length).2.2.2⟩ := by
  unfold putFile
  rw [if_neg hdir]
  have h2 : ¬((!cfg.canTaildrop) = true) := by simp [hcan]
  rw [if_neg h2]
  have h3 : ¬((cfg.unraid && !cfg.directFileMode) = true) := by simp [hacc]
  rw [if_neg h3]
  have h4 : joinDir cfg.dir name = some (cfg.dir ++ "/" ++ name) := by simp [joinDir, hname]
  rw [h4]
  simp only [transferKey] at hkey
  dsimp only []
  rw [if_neg hkey]
  rfl

/-! Claim theorems. -/

/-- Claim C4: a PutFile call that passes the precondition checks but
finds an in-progress transfer registered for its key returns the
transfer-already-in-progress error with value 0 immediately: the disk
and the registry are untouched and no filesystem operation at all is
performed (empty trace). -/
theorem putFile_admission_conflict (cfg : Config) (st : SysState) (id name : String)
    (r : Reader) (offset length : Int)
    (hdir : cfg.dir ≠ "") (hcan : cfg.canTaildrop = true)
    (hacc : (cfg.unraid && !cfg.directFileMode) = false)
    (hname : validName name = true)
    (hkey : transferKey cfg id name ∈ st.reg) :
    putFile cfg st id name r offset length = ⟨0, some Err.fileExists, st.fs, st.reg, []⟩ := by
  unfold putFile
  rw [if_neg hdir]
  have h2 : ¬((!cfg.canTaildrop) = true) := by simp [hcan]
  rw [if_neg h2]
  have h3 : ¬((cfg.unraid && !cfg.directFileMode) = true) := by simp [hacc]
  rw [if_neg h3]
  have h4 : joinDir cfg.dir name = some (cfg.dir ++ "/" ++ name) := by simp [joinDir, hname]
  rw [h4]
  simp only [transferKey] at hkey
  dsimp only []
  rw [if_pos hkey]

/-- Witness for claim C4 at a concrete input. -/
theorem putFile_admission_conflict_witness :
    putFile ⟨"d", true, false, false, false⟩ ⟨[], [("alice", "a")]⟩ "alice" "a" ⟨[1, 2], false⟩ 0 2 =
      ⟨0, some Err.fileExists, [], [("alice", "a")], []⟩ :=
  putFile_admission_conflict ⟨"d", true, false, false, false⟩ ⟨[], [("alice", "a")]⟩ "alice" "a"
    ⟨[1, 2], false⟩ 0 2 (by decide) rfl rfl (by decide) (by decide)

/-- Claim C5: the registry entry for the transfer key is deregistered on
every exit path: after any PutFile call whose key was not already
active, the key is absent from the registry (reusable), and all other
keys are untouched. -/
theorem putFile_key_released (cfg : Config) (st : SysState) (id name : String)
    (r : Reader) (offset length : Int)
    (hkey : transferKey cfg id name ∉ st.reg) :
    transferKey cfg id name ∉ (putFile cfg st id name r offset length).reg ∧
    (∀ k : Key, k ≠ transferKey cfg id name →
      (k ∈ (putFile cfg st id name r offset length).reg ↔ k ∈ st.reg)) := by
  rcases putFile_reg_cases cfg st id name r offset length with h | h <;> rw [h]
  · exact ⟨hkey, fun k _ => Iff.rfl⟩
  · constructor
    · exact not_mem_regDelete _ _
    · intro k hk
      rw [mem_regDelete_iff]
      simp [List.mem_cons, hk]

/-- Witness for claim C5 at a concrete input. -/
theorem putFile_key_released_witness :
    ("alice", "a") ∉ (putFile ⟨"d", true, false, false, false⟩ ⟨[], [("bob", "b")]⟩ "alice" "a"
      ⟨[1, 2], false⟩ 0 2).reg ∧
    (("bob", "b") ∈ (putFile ⟨"d", true, false, false, false⟩ ⟨[], [("bob", "b")]⟩ "alice" "a"
      ⟨[1, 2], false⟩ 0 2).reg ↔ ("bob", "b") ∈ ([("bob", "b")] : List Key)) := by
  have h := putFile_key_released ⟨"d", true, false, false, false⟩ ⟨[], [("bob", "b")]⟩ "alice" "a"
    ⟨[1, 2], false⟩ 0 2 (by decide)
  exact ⟨h.1, h.2 ("bob", "b") (by decide)⟩

/-- Claim C9: whenever PutFile returns a non-nil error, the returned
length value is 0: a caller never receives a partial byte count together
with an error. -/
theorem putFile_error_returns_zero (cfg : Config) (st : SysState) (id name : String)
    (r : Reader) (offset length : Int)
    (h : (putFile cfg st id name r offset length).err ≠ none) :
    (putFile cfg st id name r offset length).val = 0 := by
  have hcase : (putFile cfg st id name r offset length).err = none ∨
      (putFile cfg st id name r offset length).val = 0 := by
    rcases putFile_cases cfg st id name r offset length with ⟨e, hne, hc⟩ | hc <;> rw [hc]
    · right; rfl
    · exact putFileBody_err_none_or_val_zero _ _ _ _ _ _ _
  exact hcase.resolve_left h

/-- Witness for claim C9 at a concrete input (a declared-length
mismatch). -/
theorem putFile_error_returns_zero_witness :
    (putFile ⟨"d", true, false, false, false⟩ ⟨[], []⟩ "alice" "a" ⟨[1, 2], false⟩ 0 5).err ≠ none ∧
    (putFile ⟨"d", true, false, false, false⟩ ⟨[], []⟩ "alice" "a" ⟨[1, 2], false⟩ 0 5).val = 0 :=
  ⟨by decide, putFile_error_returns_zero ⟨"d", true, false, false, false⟩ ⟨[], []⟩ "alice" "a"
    ⟨[1, 2], false⟩ 0 5 (by decide)⟩

/-- Claim C3: renames are guarded: in the trace of any PutFile call,
every rename of the partial file onto a destination path comes
immediately after a stat of that path reporting it absent (the atomic
stat-then-rename decision), so an existing destination file is never
overwritten; moreover any file other than the partial file of the call
keeps its content. -/
theorem putFile_never_overwrites (cfg : Config) (st : SysState) (id name : String)
    (r : Reader) (offset length : Int) :
    RenamesGuarded (putFile cfg st id name r offset length).trace ∧
    (∀ q c, q ≠ partPathOf cfg id name → fsGet st.fs q = some c →
      fsGet (putFile cfg st id name r offset length).fs q = some c) := by
  rcases putFile_cases cfg st id name r offset length with ⟨e, hne, hc⟩ | hc <;> rw [hc]
  · exact ⟨RenamesGuarded.nil, fun q c _ hq => hq⟩
  · exact ⟨putFileBody_guarded _ _ _ _ _ _ _,
      fun q c hqp hq => putFileBody_preserve _ _ _ _ _ _ _ q c hqp hq⟩

/-- Witness for claim C3 at a concrete input (a finalize with one
collision then a successful rename). -/
theorem putFile_never_overwrites_witness :
    fsGet (putFile ⟨"d", true, false, false, false⟩ ⟨[("d/a", [5, 5])], []⟩ "alice" "a"
      ⟨[7], false⟩ 0 1).fs "d/a" = some [5, 5] :=
  (putFile_never_overwrites ⟨"d", true, false, false, false⟩ ⟨[("d/a", [5, 5])], []⟩ "alice" "a"
    ⟨[7], false⟩ 0 1).2 "d/a" [5, 5] (by decide) (by decide)

/-- Claim C8: any PutFile call makes at most 10 stat-then-rename
attempts, and when it fails with the too-many-retries error it has made
exactly 10 of them and the partial file is left in place on disk. -/
theorem putFile_retry_bound (cfg : Config) (st : SysState) (id name : String)
    (r : Reader) (offset length : Int) :
    statCount (putFile cfg st id name r offset length).trace ≤ 10 ∧
    ((putFile cfg st id name r offset length).err = some Err.tooManyRetries →
      statCount (putFile cfg st id name r offset length).trace = 10 ∧
      (fsGet (putFile cfg st id name r offset length).fs (partPathOf cfg id name)).isSome = true) := by
  rcases putFile_cases cfg st id name r offset length with ⟨e, hne, hc⟩ | hc <;> rw [hc]
  · refine ⟨by simp [statCount], ?_⟩
    intro h
    simp only [PutResult.err] at h
    exact absurd (Option.some.injEq _ _ ▸ h) hne
  · exact ⟨putFileBody_statCount_le _ _ _ _ _ _ _,
      fun h => putFileBody_tooMany _ _ _ _ _ _ _ h⟩

/-- Witness for claim C8 at a concrete input exhausting all 10
attempts: every candidate name is occupied by content of a different
length. -/
theorem putFile_retry_bound_witness :
    (putFile ⟨"d", true, false, false, false⟩
      ⟨[("d/a", [5, 5]), ("d/a1", [5, 5]), ("d/a11", [5, 5]), ("d/a111", [5, 5]),
        ("d/a1111", [5, 5]), ("d/a11111", [5, 5]), ("d/a111111", [5, 5]), ("d/a1111111", [5, 5]),
        ("d/a11111111", [5, 5]), ("d/a111111111", [5, 5])], []⟩ "alice" "a"
      ⟨[7], false⟩ 0 1).err = some Err.tooManyRetries ∧
    statCount (putFile ⟨"d", true, false, false, false⟩
      ⟨[("d/a", [5, 5]), ("d/a1", [5, 5]), ("d/a11", [5, 5]), ("d/a111", [5, 5]),
        ("d/a1111", [5, 5]), ("d/a11111", [5, 5]), ("d/a111111", [5, 5]), ("d/a1111111", [5, 5]),
        ("d/a11111111", [5, 5]), ("d/a111111111", [5, 5])], []⟩ "alice" "a"
      ⟨[7], false⟩ 0 1).trace = 10 ∧
    (fsGet (putFile ⟨"d", true, false, false, false⟩
      ⟨[("d/a", [5, 5]), ("d/a1", [5, 5]), ("d/a11", [5, 5]), ("d/a111", [5, 5]),
        ("d/a1111", [5, 5]), ("d/a11111", [5, 5]), ("d/a111111", [5, 5]), ("d/a1111111", [5, 5]),
        ("d/a11111111", [5, 5]), ("d/a111111111", [5, 5])], []⟩ "alice" "a"
      ⟨[7], false⟩ 0 1).fs (partPathOf ⟨"d", true, false, false, false⟩ "alice" "a")).isSome = true := by
  refine ⟨by decide, ?_⟩
  have h := (putFile_retry_bound ⟨"d", true, false, false, false⟩
    ⟨[("d/a", [5, 5]), ("d/a1", [5, 5]), ("d/a11", [5, 5]), ("d/a111", [5, 5]),
      ("d/a1111", [5, 5]), ("d/a11111", [5, 5]), ("d/a111111", [5, 5]), ("d/a1111111", [5, 5]),
      ("d/a11111111", [5, 5]), ("d/a111111111", [5, 5])], []⟩ "alice" "a"
    ⟨[7], false⟩ 0 1).2 (by decide)
  exact h

/-- Claim C1 (code behavior at the failing input): with the standard
configuration, an existing 3-byte partial file, and an invalid resume
offset (negative, or larger than the current partial length), PutFile
returns value 0 and NO error, and the partial file is unchanged.  The
invalid-offset return site passes the inner Seek err variable, which is
provably nil there since the preceding Seek succeeded, to
redactAndLogError, so the call reports success instead of the specified
failure. -/
theorem putFile_invalid_offset_nil_error :
    ((putFile ⟨"d", true, false, false, false⟩ ⟨[("d/a.alice.partial", [1, 2, 3])], []⟩ "alice" "a"
      ⟨[9], false⟩ (-1) 1).err = none ∧
     (putFile ⟨"d", true, false, false, false⟩ ⟨[("d/a.alice.partial", [1, 2, 3])], []⟩ "alice" "a"
      ⟨[9], false⟩ (-1) 1).val = 0 ∧
     fsGet (putFile ⟨"d", true, false, false, false⟩ ⟨[("d/a.alice.partial", [1, 2, 3])], []⟩
      "alice" "a" ⟨[9], false⟩ (-1) 1).fs "d/a.alice.partial" = some [1, 2, 3]) ∧
    ((putFile ⟨"d", true, false, false, false⟩ ⟨[("d/a.alice.partial", [1, 2, 3])], []⟩ "alice" "a"
      ⟨[9], false⟩ 5 1).err = none ∧
     (putFile ⟨"d", true, false, false, false⟩ ⟨[("d/a.alice.partial", [1, 2, 3])], []⟩ "alice" "a"
      ⟨[9], false⟩ 5 1).val = 0 ∧
     fsGet (putFile ⟨"d", true, false, false, false⟩ ⟨[("d/a.alice.partial", [1, 2, 3])], []⟩
      "alice" "a" ⟨[9], false⟩ 5 1).fs "d/a.alice.partial" = some [1, 2, 3]) := by
  decide

theorem copyPhase_mismatch (avoid : Bool) (fs : FS) (pPath dst : String)
    (r : Reader) (offset length : Int) (c1 : Content)
    (hlen : 0 ≤ length) (hne : (r.data.length : Int) ≠ length) :
    (copyPhase avoid fs pPath dst r offset length c1).2.1 ≠ none := by
  unfold copyPhase
  dsimp only []
  split
  · split
    · simp
    · simp
  · split
    · simp
    · rename_i hcond
      exact absurd ⟨hlen, hne⟩ hcond

theorem putFileBody_mismatch_cases (avoid : Bool) (fs : FS) (pPath dst : String)
    (r : Reader) (offset length : Int)
    (hlen : 0 ≤ length) (hne : (r.data.length : Int) ≠ length) :
    (putFileBody avoid fs pPath dst r offset length).2.1 ≠ none ∨
    (putFileBody avoid fs pPath dst r offset length).2.2.2.any isWrite = false := by
  unfold putFileBody
  dsimp only []
  split
  · exact Or.inl (copyPhase_mismatch _ _ _ _ _ _ _ _ hlen hne)
  · split
    · right
      simp [isWrite]
    · exact Or.inl (copyPhase_mismatch _ _ _ _ _ _ _ _ hlen hne)

/-- Claim C6: for a PutFile call with a known declared length, whenever
the copy phase actually ran (a write operation appears in the trace) and
the number of bytes obtained from the reader differs from the declared
length, the call fails with an error: a short or long transfer is never
silently accepted. -/
theorem putFile_length_enforced (cfg : Config) (st : SysState) (id name : String)
    (r : Reader) (offset length : Int)
    (hw : (putFile cfg st id name r offset length).trace.any isWrite = true)
    (hlen : 0 ≤ length) (hne : (r.data.length : Int) ≠ length) :
    (putFile cfg st id name r offset length).err ≠ none := by
  rcases putFile_cases cfg st id name r offset length with ⟨e, hne2, hc⟩ | hc
  · rw [hc] at hw
    simp at hw
  · rw [hc] at hw ⊢
    rcases putFileBody_mismatch_cases (cfg.directFileMode && cfg.avoidFinalRename) st.fs
      (partPathOf cfg id name) (dstPathOf cfg name) r offset length hlen hne with h | h
    · exact h
    · simp only [PutResult.trace] at hw
      simp [h] at hw

/-- Witness for claim C6 at a concrete input (2 bytes supplied against a
declared length of 5). -/
theorem putFile_length_enforced_witness :
    (putFile ⟨"d", true, false, false, false⟩ ⟨[], []⟩ "alice" "a"
      ⟨[1, 2], false⟩ 0 5).trace.any isWrite = true ∧
    (putFile ⟨"d", true, false, false, false⟩ ⟨[], []⟩ "alice" "a"
      ⟨[1, 2], false⟩ 0 5).err ≠ none :=
  ⟨by decide, putFile_length_enforced ⟨"d", true, false, false, false⟩ ⟨[], []⟩ "alice" "a"
    ⟨[1, 2], false⟩ 0 5 (by decide) (by decide) (by decide)⟩

theorem finalizeLoop_no_seek (fuel : Nat) (pPath : String) (fileLength : Int) :
    ∀ (dst : String) (fs : FS),
      (finalizeLoop fuel pPath dst fileLength fs).2.2.2.any isSeekOrTruncate = false := by
  induction fuel with
  | zero => intro dst fs; simp [finalizeLoop]
  | succ fuel ih =>
    intro dst fs
    cases hdst : fsGet fs dst with
    | none => simp [finalizeLoop, hdst, isSeekOrTruncate]
    | some c =>
      simp only [finalizeLoop, hdst]
      split
      · simp [isSeekOrTruncate]
      · simp [List.any_cons, isSeekOrTruncate, ih (nextFilename dst) fs]

theorem copyPhase_no_seek (avoid : Bool) (fs : FS) (pPath dst : String)
    (r : Reader) (offset length : Int) (c1 : Content) :
    (copyPhase avoid fs pPath dst r offset length c1).2.2.2.any isSeekOrTruncate = false := by
  unfold copyPhase
  dsimp only []
  split
  · split
    · simp [isSeekOrTruncate]
    · simp [isSeekOrTruncate]
  · split
    · simp [isSeekOrTruncate]
    · split
      · simp [isSeekOrTruncate]
      · simp [List.any_cons, List.any_append, isSeekOrTruncate,
          finalizeLoop_no_seek 10 pPath _ dst _]

/-- Claim C10: with a zero resume offset the partial file is opened
without truncation and no seek or truncate operation ever appears in the
trace; consequently, in the direct AvoidFinalRename mode (where the
partial file survives the call), a successful copy over a pre-existing
partial file leaves every byte beyond the copied length unchanged on
disk: the file ends up as the new bytes followed by the old tail. -/
theorem putFile_offset_zero_no_truncate :
    (∀ (cfg : Config) (st : SysState) (id name : String) (r : Reader) (length : Int),
      (putFile cfg st id name r 0 length).trace.any isSeekOrTruncate = false) ∧
    (∀ (cfg : Config) (st : SysState) (id name : String) (r : Reader) (length : Int)
      (old : Content),
      cfg.directFileMode = true → cfg.avoidFinalRename = true → cfg.dir ≠ "" →
      cfg.canTaildrop = true → validName name = true →
      transferKey cfg id name ∉ st.reg →
      fsGet st.fs (partPathOf cfg id name) = some old →
      r.readErr = false → (length < 0 ∨ length = (r.data.length : Int)) →
      fsGet (putFile cfg st id name r 0 length).fs (partPathOf cfg id name) =
        some (r.data ++ old.drop r.data.length)) := by
  constructor
  · intro cfg st id name r length
    rcases putFile_cases cfg st id name r 0 length with ⟨e, hne, hc⟩ | hc <;> rw [hc]
    · simp
    · show (putFileBody _ _ _ _ _ 0 _).2.2.2.any isSeekOrTruncate = false
      unfold putFileBody
      dsimp only []
      rw [if_pos (show (0 : Int) = 0 from rfl)]
      simp [List.any_cons, isSeekOrTruncate, copyPhase_no_seek]
  · intro cfg st id name r length old hd ha hdir hcan hname hkey hpart hre hlen
    have hacc : (cfg.unraid && !cfg.directFileMode) = false := by simp [hd]
    have havoid : (cfg.directFileMode && cfg.avoidFinalRename) = true := by simp [hd, ha]
    have hcond : ¬(0 ≤ length ∧ (r.data.length : Int) ≠ length) := by
      rcases hlen with h | h
      · intro hc; omega
      · intro hc; exact hc.2 h.symm
    rw [putFile_admitted_eq cfg st id name r 0 length hdir hcan hacc hname hkey]
    show fsGet (putFileBody _ _ _ _ _ 0 _).2.2.1 _ = _
    unfold putFileBody
    dsimp only []
    rw [hpart]
    rw [if_pos (show (0 : Int) = 0 from rfl)]
    show fsGet (copyPhase _ _ _ _ _ 0 _ _).2.2.1 _ = _
    unfold copyPhase
    dsimp only []
    rw [hre, havoid]
    rw [if_neg (by simp), if_neg hcond, if_pos rfl]
    dsimp only []
    rw [fsGet_set_self]
    simp

/-- Witness for claim C10 at a concrete input: partial file [1,2,3,4,5]
on disk, 2 new bytes written at offset 0 in AvoidFinalRename mode. -/
theorem putFile_offset_zero_no_truncate_witness :
    (putFile ⟨"d", true, false, true, true⟩ ⟨[("d/a.partial", [1, 2, 3, 4, 5])], []⟩ "alice" "a"
      ⟨[9, 9], false⟩ 0 (-1)).trace.any isSeekOrTruncate = false ∧
    fsGet (putFile ⟨"d", true, false, true, true⟩ ⟨[("d/a.partial", [1, 2, 3, 4, 5])], []⟩
      "alice" "a" ⟨[9, 9], false⟩ 0 (-1)).fs
      (partPathOf ⟨"d", true, false, true, true⟩ "alice" "a") =
      some ([9, 9] ++ ([1, 2, 3, 4, 5] : Content).drop 2) :=
  ⟨putFile_offset_zero_no_truncate.1 ⟨"d", true, false, true, true⟩
      ⟨[("d/a.partial", [1, 2, 3, 4, 5])], []⟩ "alice" "a" ⟨[9, 9], false⟩ (-1),
    putFile_offset_zero_no_truncate.2 ⟨"d", true, false, true, true⟩
      ⟨[("d/a.partial", [1, 2, 3, 4, 5])], []⟩ "alice" "a" ⟨[9, 9], false⟩ (-1) [1, 2, 3, 4, 5]
      rfl rfl (by decide) rfl (by decide) (by decide) (by decide) rfl (Or.inl (by decide))⟩

/-! Lemmas about the progress notifier. -/

theorem notifyTimes_chain (es : List WriteEv) :
    ∀ (s : NotifyState),
      List.Chain' (fun a b => oneSecond < b - a) (notifyTimes s es) ∧
      (∀ t, s.lastNotify = some t →
        List.Chain' (fun a b => oneSecond < b - a) (t :: notifyTimes s es)) := by
  induction es with
  | nil => intro s; simp [notifyTimes]
  | cons e es ih =>
    intro s
    by_cases hn : 0 < e.n
    · cases hl : s.lastNotify with
      | none =>
        have hw : writeStep s e = (⟨s.copied + e.n, some e.now⟩, true) := by
          simp [writeStep, hn, hl]
        constructor
        · simp only [notifyTimes, hw]
          exact (ih _).2 e.now rfl
        · intro t ht
          exact Option.noConfusion ht
      | some t0 =>
        by_cases hf : oneSecond < e.now - t0
        · have hw : writeStep s e = (⟨s.copied + e.n, some e.now⟩, true) := by
            simp [writeStep, hn, hl, hf]
          constructor
          · simp only [notifyTimes, hw]
            exact (ih _).2 e.now rfl
          · intro t ht
            obtain rfl := Option.some.inj ht
            simp only [notifyTimes, hw]
            exact List.chain'_cons.mpr ⟨hf, (ih _).2 e.now rfl⟩
        · have hw : writeStep s e = (⟨s.copied + e.n, s.lastNotify⟩, false) := by
            simp [writeStep, hn, hl, hf]
          constructor
          · simp only [notifyTimes, hw]
            exact (ih _).1
          · intro t ht
            obtain rfl := Option.some.inj ht
            simp only [notifyTimes, hw]
            exact (ih _).2 t0 (by rw [hl])
    · have hw : writeStep s e = (s, false) := by simp [writeStep, hn]
      constructor
      · simp only [notifyTimes, hw]
        exact (ih s).1
      · intro t ht
        simp only [notifyTimes, hw]
        exact (ih s).2 t ht

/-- Claim C7: over any sequence of writes starting from a fresh
incoming file, the notifier fires on the very first successful write
(the first event that wrote bytes, regardless of preceding zero-byte
writes), and consecutive notification times are always more than one
second apart: it never fires more often than once per elapsed second. -/
theorem incomingFile_notify_rate (events : List WriteEv) :
    (∀ (pre : List WriteEv) (e : WriteEv) (post : List WriteEv),
      events = pre ++ e :: post → (∀ x ∈ pre, x.n = 0) → 0 < e.n →
      notifyTimes initNotify events =
        e.now :: notifyTimes ⟨(e.n : Int), some e.now⟩ post) ∧
    List.Chain' (fun a b => oneSecond < b - a) (notifyTimes initNotify events) := by
  constructor
  · intro pre e post hev hpre hn
    subst hev
    induction pre with
    | nil =>
      have hw : writeStep initNotify e = (⟨(e.n : Int), some e.now⟩, true) := by
        simp [writeStep, initNotify, hn]
      simp [notifyTimes, hw]
    | cons x pre ih =>
      have hx : x.n = 0 := hpre x (by simp)
      have hw : writeStep initNotify x = (initNotify, false) := by
        simp [writeStep, hx]
      simp only [List.cons_append, notifyTimes, hw]
      exact ih (fun y hy => hpre y (by simp [hy]))
  · exact (notifyTimes_chain events initNotify).1

/-- Witness for claim C7 at a concrete sequence: three writes at times
0ns, 0.5s and 1.5s+1ns. -/
theorem incomingFile_notify_rate_witness :
    notifyTimes initNotify [⟨3, 0⟩, ⟨2, 500000000⟩, ⟨1, 1500000001⟩] =
      0 :: notifyTimes ⟨(3 : Int), some 0⟩ [⟨2, 500000000⟩, ⟨1, 1500000001⟩] :=
  (incomingFile_notify_rate [⟨3, 0⟩, ⟨2, 500000000⟩, ⟨1, 1500000001⟩]).1 [] ⟨3, 0⟩
    [⟨2, 500000000⟩, ⟨1, 1500000001⟩] rfl (by simp) (by decide)

/-- Computation of the admitted body in the dedup situation: offset 0,
no read error, the destination already holding exactly the incoming
bytes, and no pre-existing partial file.  The first finalize iteration
finds the destination occupied with equal size and digest and removes
the partial file. -/
theorem putFileBody_dedup (cfg : Config) (st : SysState) (id name : String)
    (data : Content) (length : Int)
    (hdst : fsGet st.fs (dstPathOf cfg name) = some data)
    (hpart : fsGet st.fs (partPathOf cfg id name) = none)
    (hlen : length < 0 ∨ length = (data.length : Int)) :
    putFileBody false st.fs (partPathOf cfg id name) (dstPathOf cfg name) ⟨data, false⟩ 0 length =
      ((data.length : Int), none,
        fsDel (fsSet (fsSet st.fs (partPathOf cfg id name) []) (partPathOf cfg id name) data)
          (partPathOf cfg id name),
        [FsOp.create (partPathOf cfg id name), FsOp.write (partPathOf cfg id name) data.length,
          FsOp.close (partPathOf cfg id name), FsOp.stat (dstPathOf cfg name) true,
          FsOp.remove (partPathOf cfg id name), FsOp.close (partPathOf cfg id name)]) := by
  have hDP : dstPathOf cfg name ≠ partPathOf cfg id name :=
    Ne.symm (partPath_ne_dst (dstPathOf cfg name) (transferKey cfg id name).1)
  have hcond : ¬(0 ≤ length ∧ (data.length : Int) ≠ length) := by
    rcases hlen with h | h
    · intro hc; omega
    · intro hc; exact hc.2 h.symm
  unfold putFileBody
  rw [hpart]
  rw [if_pos (show (0 : Int) = 0 from rfl)]
  dsimp only [Option.getD_none, Option.isSome_none]
  rw [if_neg (by simp)]
  unfold copyPhase
  dsimp only []
  simp only [Int.toNat_zero, List.take_nil, List.drop_nil, List.nil_append, List.append_nil]
  rw [if_neg (by simp)]
  rw [if_neg hcond]
  rw [if_neg (by simp)]
  rw [show (10 : Nat) = 9 + 1 from rfl]
  rw [finalizeLoop.eq_2]
  rw [fsGet_set_ne _ _ _ _ hDP, fsGet_set_ne _ _ _ _ hDP, hdst]
  dsimp only []
  rw [fsGet_set_self]
  rw [if_pos ⟨(zero_add _).symm, rfl⟩]
  simp [zero_add]

/-- Claim C2: dedup idempotence of the second identical send: against a
state in which the destination file already holds exactly the incoming
bytes (as after a first identical PutFile) and no partial file for the
key exists, a PutFile of the same name and content succeeds, returns the
full byte length, deletes its partial file (a remove appears in the
trace), leaves the disk exactly as it found it (so the destination file
with that content is still the only one when it was before), and the
destination still holds the content. -/
theorem putFile_dedup_idempotent (cfg : Config) (st : SysState) (id name : String)
    (data : Content) (length : Int)
    (hdir : cfg.dir ≠ "") (hcan : cfg.canTaildrop = true)
    (hacc : (cfg.unraid && !cfg.directFileMode) = false)
    (havoid : (cfg.directFileMode && cfg.avoidFinalRename) = false)
    (hname : validName name = true)
    (hkey : transferKey cfg id name ∉ st.reg)
    (hdst : fsGet st.fs (dstPathOf cfg name) = some data)
    (hpart : fsGet st.fs (partPathOf cfg id name) = none)
    (hlen : length < 0 ∨ length = (data.length : Int)) :
    (putFile cfg st id name ⟨data, false⟩ 0 length).err = none ∧
    (putFile cfg st id name ⟨data, false⟩ 0 length).val = (data.length : Int) ∧
    FsOp.remove (partPathOf cfg id name) ∈ (putFile cfg st id name ⟨data, false⟩ 0 length).trace ∧
    fsGet (putFile cfg st id name ⟨data, false⟩ 0 length).fs (dstPathOf cfg name) = some data ∧
    (∀ q, fsGet (putFile cfg st id name ⟨data, false⟩ 0 length).fs q = fsGet st.fs q) ∧
    ((∀ q, fsGet st.fs q = some data → q = dstPathOf cfg name) →
      ∀ q, fsGet (putFile cfg st id name ⟨data, false⟩ 0 length).fs q = some data →
        q = dstPathOf cfg name) := by
  rw [putFile_admitted_eq cfg st id name ⟨data, false⟩ 0 length hdir hcan hacc hname hkey]
  rw [havoid]
  rw [putFileBody_dedup cfg st id name data length hdst hpart hlen]
  have hext : ∀ q,
      fsGet (fsDel (fsSet (fsSet st.fs (partPathOf cfg id name) []) (partPathOf cfg id name) data)
        (partPathOf cfg id name)) q = fsGet st.fs q := by
    intro q
    by_cases hq : q = partPathOf cfg id name
    · subst hq
      rw [fsGet_del_self]
      exact hpart.symm
    · rw [fsGet_del_ne _ _ _ hq, fsGet_set_ne _ _ _ _ hq, fsGet_set_ne _ _ _ _ hq]
  refine ⟨rfl, rfl, by simp, ?_, hext, ?_⟩
  · exact (hext (dstPathOf cfg name)).trans hdst
  · intro huniq q hq
    exact huniq q ((hext q).symm.trans hq)

/-- Witness for claim C2 at a concrete input: destination d/a already
holds the incoming two bytes. -/
theorem putFile_dedup_idempotent_witness :
    (putFile ⟨"d", true, false, false, false⟩ ⟨[("d/a", [7, 8])], []⟩ "bob" "a"
      ⟨[7, 8], false⟩ 0 2).err = none ∧
    (putFile ⟨"d", true, false, false, false⟩ ⟨[("d/a", [7, 8])], []⟩ "bob" "a"
      ⟨[7, 8], false⟩ 0 2).val = 2 ∧
    (∀ q, fsGet (putFile ⟨"d", true, false, false, false⟩ ⟨[("d/a", [7, 8])], []⟩ "bob" "a"
      ⟨[7, 8], false⟩ 0 2).fs q = fsGet [("d/a", [7, 8])] q) := by
  have h := putFile_dedup_idempotent ⟨"d", true, false, false, false⟩ ⟨[("d/a", [7, 8])], []⟩
    "bob" "a" [7, 8] 2 (by decide) rfl rfl rfl (by decide) (by decide) (by decide) (by decide)
    (Or.inr (by decide))
  exact ⟨h.1, h.2.1, h.2.2.2.2.1⟩

end Taildrop
